import Mathlib

/-!
Verification development for the Sugarscape simulation engine
(`Sugarscape.py`).  The engine is embedded shallowly: grids are functions
from coordinates to integers, the occupancy set is a `Finset`, and every
source of randomness (the per-step activation permutation, the per-distance
shuffle of the visibility kernel, the random free-cell search used for
replacement spawning, and the random attribute draws of freshly created
agents) is passed in explicitly as an oracle parameter, constrained by the
hypotheses of the theorems that need it.

The agent class lives in `SugarAgent.py`, which is not part of this
repository's sources; its behaviour (move to the cell chosen by
`look_and_move`, harvest it, subtract metabolism, age, die on reserve less
or equal zero or on exceeding the lifespan) is modelled from the spec where
marked below.
-/

/-- A grid coordinate `(row, col)`. -/
abbrev Loc := Nat × Nat

/-- Embeds `make_locs(n, m)`: every index pair of an `n` by `m` grid,
row-major, as produced by the Python list comprehension. -/
def make_locs (n m : Nat) : List Loc :=
  (List.range n).flatMap (fun i => (List.range m).map (fun j => (i, j)))

/-- The four cardinal offsets at distance `d`, in the order written in
`make_array` inside `make_visible_locs`. -/
def cardOffsets (d : Int) : List (Int × Int) :=
  [(-d, 0), (d, 0), (0, -d), (0, d)]

/-- Embeds `make_visible_locs(vision)`.  The call `np.random.shuffle` on the
block of the four offsets at distance `d` is modelled by the oracle `σ`
applied to that block; theorems that depend on the shuffle being a shuffle
take the hypothesis that `σ d` permutes its argument. -/
def make_visible_locs (vision : Nat) (σ : Nat → List (Int × Int) → List (Int × Int)) :
    List (Int × Int) :=
  ((List.range vision).map (fun k => σ (k + 1) (cardOffsets ((k : Int) + 1)))).flatten

/-- Squared Euclidean distance between `(i, j)` and the peak `p`; the code
computes `np.hypot(X - i, Y - j)` and only ever compares it against the
integer bin edges `[21, 16, 11, 6]`, so we work with the exact squared
distance and compare against the squared edges. -/
def distSq (p : Int × Int) (i j : Int) : Int :=
  (i - p.1) * (i - p.1) + (j - p.2) * (j - p.2)

/-- Embeds `np.digitize(dist, [21, 16, 11, 6])` acting on the squared
distance: distance at least 21 gives tier 0, at least 16 gives 1, at least
11 gives 2, at least 6 gives 3, otherwise 4. -/
def tier (d : Int) : Int :=
  if 441 ≤ d then 0 else if 256 ≤ d then 1 else if 121 ≤ d then 2
  else if 36 ≤ d then 3 else 4

/-- Embeds one cell of `make_capacity`: the digitized minimum of the
distances to the two fixed peaks `(15, 15)` and `(35, 35)`. -/
def capacityAt (i j : Int) : Int :=
  tier (min (distSq (15, 15) i j) (distSq (35, 35) i j))

/-- Embeds `(locs + center) % self.n` for a single offset: translate to the
center and wrap both coordinates modulo the grid size. -/
def wrapLoc (n : Nat) (center : Loc) (off : Int × Int) : Loc :=
  ((((center.1 : Int) + off.1) % (n : Int)).toNat,
   (((center.2 : Int) + off.2) % (n : Int)).toNat)

/-- Helper for `argmax`: scan a list keeping the index and value of the
first maximum seen so far (`x` is the element at the position before `t`,
currently the best). -/
def argmaxFrom (x : Int) : List Int → Nat × Int
  | [] => (0, x)
  | y :: t =>
    let p := argmaxFrom y t
    if x < p.2 then (p.1 + 1, p.2) else (0, x)

/-- Embeds `np.argmax`: the index of the first occurrence of the maximum,
`0` on the empty list. -/
def argmax : List Int → Nat
  | [] => 0
  | x :: t => (argmaxFrom x t).1

/-- Embeds `Sugarscape.look_and_move(center, vision)`; the kernel produced
by `make_visible_locs` is passed in already generated. -/
def look_and_move (n : Nat) (occupied : Finset Loc) (arr : Loc → Int)
    (center : Loc) (kernel : List (Int × Int)) : Loc :=
  let locs := kernel.map (fun off => wrapLoc n center off)
  let empty_locs := locs.filter (fun l => decide (l ∉ occupied))
  match empty_locs with
  | [] => center
  | _ :: _ =>
    let t := empty_locs.map arr
    empty_locs.getD (argmax t) center

/-- Embeds `Sugarscape.harvest(loc)`: return the sugar at `loc` together
with the grid where that cell is set to zero. -/
def harvest (arr : Loc → Int) (loc : Loc) : Int × (Loc → Int) :=
  (arr loc, fun l => if l = loc then 0 else arr l)

/-- Embeds `Sugarscape.grow()`: add the growth rate to every cell, capped
elementwise by the capacity. -/
def grow (grow_rate : Nat) (capacity arr : Loc → Int) : Loc → Int :=
  fun l => min (arr l + (grow_rate : Int)) (capacity l)

/-- Modelled from the spec: the agent record of `SugarAgent.Agent` (absent
from the sources), holding location, vision radius, metabolism, resource
reserve (`sugar`), age and lifespan.  The `id` field models Python object
identity, used by `list.remove` and by in-place mutation. -/
structure Agent where
  id : Nat
  loc : Loc
  vision : Nat
  metabolism : Int
  sugar : Int
  age : Nat
  lifespan : Nat
deriving DecidableEq

/-- Modelled from the spec: the randomly drawn attributes of a freshly
constructed agent (vision, metabolism, initial reserve, lifespan). -/
structure AgentAttrs where
  vision : Nat
  metabolism : Int
  sugar : Int
  lifespan : Nat
deriving DecidableEq

/-- The oracle for one agent activation: the kernel shuffle used by its
`make_visible_locs` call, and, if a replacement is spawned, the stream of
cells tried by `random_loc` and the drawn attributes of the new agent. -/
structure Choice where
  shuffle : Nat → List (Int × Int) → List (Int × Int)
  spawnLocs : List Loc
  attrs : AgentAttrs

/-- The record of one agent activation inside `step`: the released center
and the occupancy set it was released from, the harvested cell and the
occupancy set at the moment of harvest, the id of the agent if it died,
and the replacement agent if one was spawned. -/
structure ActRec where
  center : Loc
  occ0 : Finset Loc
  hloc : Loc
  hocc : Finset Loc
  died : Option Nat
  spawn : Option Agent
deriving DecidableEq

/-- The state of a `Sugarscape` instance: grid size, configuration, the
capacity and sugar grids, the live agents, the occupancy set, the recorded
population counts, and the id counter modelling object identity. -/
structure Sim where
  n : Nat
  growRate : Nat
  replace : Bool
  capacity : Loc → Int
  array : Loc → Int
  agents : List Agent
  occupied : Finset Loc
  agentCountSeq : List Nat
  nextId : Nat

/-- Embeds `self.agents.remove(agent)`: remove the first list entry that is
the given object (objects are identified by `id`). -/
def removeFirstAgent (i : Nat) : List Agent → List Agent
  | [] => []
  | a :: as => if a.id = i then as else a :: removeFirstAgent i as

/-- Models in-place mutation of an agent object held in `self.agents`:
replace the first entry with the same identity by its updated record. -/
def setAgent (a' : Agent) : List Agent → List Agent
  | [] => []
  | a :: as => if a.id = a'.id then a' :: as else a :: setAgent a' as

/-- Embeds the loop of `random_loc()`: the first cell of the oracle stream
that is not occupied, `none` if the stream is exhausted (the Python loop
would keep drawing; theorems are conditioned on the search succeeding). -/
def firstFree (occ : Finset Loc) : List Loc → Option Loc
  | [] => none
  | l :: ls => if l ∈ occ then firstFree occ ls else some l

/-- Embeds the agent construction loop of `make_agents`: one agent per
location, with ids `i, i+1, ...` modelling the distinct objects. -/
def mkAgentsFrom (attrs : Nat → AgentAttrs) : Nat → List Loc → List Agent
  | _, [] => []
  | i, l :: ls =>
    ⟨i, l, (attrs i).vision, (attrs i).metabolism, (attrs i).sugar, 0,
     (attrs i).lifespan⟩ :: mkAgentsFrom attrs (i + 1) ls

/-- The configuration surface of the engine: grid size, the starting box
dimensions (default the whole grid in the source), the initial population
size, the growth rate and the replacement flag. -/
structure Config where
  n : Nat
  boxN : Nat
  boxM : Nat
  num_agents : Nat
  grow_rate : Nat
  replace : Bool
deriving DecidableEq

/-- Embeds `Sugarscape.__init__` plus `make_capacity` and `make_agents`:
`locs` is the already shuffled list of starting-box coordinates (the
caller supplies the shuffle; theorems require it to be a permutation of
`make_locs`), and the `assert num_agents <= len(locs)` is the `none`
branch.  Level starts equal to capacity. -/
def mkSim (cfg : Config) (locs : List Loc) (attrs : Nat → AgentAttrs) : Option Sim :=
  if cfg.num_agents ≤ locs.length then
    let agents := mkAgentsFrom attrs 0 (locs.take cfg.num_agents)
    some ⟨cfg.n, cfg.grow_rate, cfg.replace,
          fun l => capacityAt l.1 l.2,
          fun l => capacityAt l.1 l.2,
          agents,
          (agents.map Agent.loc).toFinset,
          [],
          cfg.num_agents⟩
  else none

/-- The destination chosen for agent `a` by `look_and_move`, called (as in
`Agent.step`) after the engine has released the agent's current cell from
the occupancy set. -/
def moveDest (s : Sim) (a : Agent) (c : Choice) : Loc :=
  look_and_move s.n (s.occupied.erase a.loc) s.array a.loc
    (make_visible_locs a.vision c.shuffle)

/-- Modelled from the spec: the agent record after `Agent.step` — moved to
the `look_and_move` destination, reserve increased by the harvested sugar
and decreased by the metabolism, age incremented. -/
def movedAgent (s : Sim) (a : Agent) (c : Choice) : Agent :=
  ⟨a.id, moveDest s a c, a.vision, a.metabolism,
   a.sugar + (harvest s.array (moveDest s a c)).1 - a.metabolism,
   a.age + 1, a.lifespan⟩

/-- Embeds `Agent(self.random_loc(), self.params)` inside `add_agent`: a
fresh agent (fresh identity) at the drawn location with the drawn
attributes, age zero. -/
def newAgent (s : Sim) (nl : Loc) (c : Choice) : Agent :=
  ⟨s.nextId, nl, c.attrs.vision, c.attrs.metabolism, c.attrs.sugar, 0,
   c.attrs.lifespan⟩

/-- Embeds one iteration of the loop in `Sugarscape.step` for agent `a`:
release the agent's cell, run the agent's step (modelled from the spec:
move to the `look_and_move` destination, harvest it, subtract metabolism,
increment age; dead on reserve at most zero or age beyond the lifespan),
then either remove the dead agent (optionally spawning a replacement via
`add_agent`) or mark the new cell occupied. -/
def activate (s : Sim) (a : Agent) (c : Choice) : Option (Sim × ActRec) :=
  if (movedAgent s a c).sugar ≤ 0 ∨
      (movedAgent s a c).lifespan < (movedAgent s a c).age then
    if s.replace then
      match firstFree (s.occupied.erase a.loc) c.spawnLocs with
      | none => none
      | some nl =>
        some (⟨s.n, s.growRate, s.replace, s.capacity,
               (harvest s.array (moveDest s a c)).2,
               removeFirstAgent a.id s.agents ++ [newAgent s nl c],
               insert nl (s.occupied.erase a.loc),
               s.agentCountSeq, s.nextId + 1⟩,
              ⟨a.loc, s.occupied, moveDest s a c, s.occupied.erase a.loc,
               some a.id, some (newAgent s nl c)⟩)
    else
      some (⟨s.n, s.growRate, s.replace, s.capacity,
             (harvest s.array (moveDest s a c)).2,
             removeFirstAgent a.id s.agents,
             s.occupied.erase a.loc,
             s.agentCountSeq, s.nextId⟩,
            ⟨a.loc, s.occupied, moveDest s a c, s.occupied.erase a.loc,
             some a.id, none⟩)
  else
    some (⟨s.n, s.growRate, s.replace, s.capacity,
           (harvest s.array (moveDest s a c)).2,
           setAgent (movedAgent s a c) s.agents,
           insert (moveDest s a c) (s.occupied.erase a.loc),
           s.agentCountSeq, s.nextId⟩,
          ⟨a.loc, s.occupied, moveDest s a c, s.occupied.erase a.loc,
           none, none⟩)

/-- The agent-processing loop of `Sugarscape.step`, folded over the
activation order (the snapshot `np.random.permutation(self.agents)`),
with the oracle `cs` supplying each activation's randomness and the
returned log recording each activation. -/
def runAgents (cs : Nat → Choice) : Nat → Sim → List Agent → Option (Sim × List ActRec)
  | _, s, [] => some (s, [])
  | k, s, a :: rest =>
    match activate s a (cs k) with
    | none => none
    | some (s1, r) =>
      match runAgents cs (k + 1) s1 rest with
      | none => none
      | some (s2, log) => some (s2, r :: log)

/-- Embeds `Sugarscape.step()`: process the agents in the supplied
activation order, append the population count to the time series, then
regrow the sugar. -/
def stepSim (s : Sim) (order : List Agent) (cs : Nat → Choice) :
    Option (Sim × List ActRec) :=
  match runAgents cs 0 s order with
  | none => none
  | some (s1, log) =>
    some (⟨s1.n, s1.growRate, s1.replace, s1.capacity,
           grow s1.growRate s1.capacity s1.array,
           s1.agents, s1.occupied,
           s1.agentCountSeq ++ [s1.agents.length], s1.nextId⟩, log)

/-- The engine states reachable from construction by completed `step()`
calls: an initial state built by `mkSim` from a shuffle of the starting
box, or the result of a completed `stepSim` on a reachable state with the
activation order a permutation of the live agents. -/
inductive Reachable : Sim → Prop where
  | init : ∀ (cfg : Config) (locs : List Loc) (attrs : Nat → AgentAttrs) (s : Sim),
      locs.Perm (make_locs cfg.boxN cfg.boxM) → mkSim cfg locs attrs = some s →
      Reachable s
  | step : ∀ (s : Sim) (order : List Agent) (cs : Nat → Choice)
      (s' : Sim) (log : List ActRec),
      Reachable s → order.Perm s.agents → stepSim s order cs = some (s', log) →
      Reachable s'

/-- The occupancy invariant: no two agents share a location and the
occupancy set is exactly the set of the live agents' locations. -/
def OccInv (s : Sim) : Prop :=
  (s.agents.map Agent.loc).Nodup ∧
  s.occupied = (s.agents.map Agent.loc).toFinset

/-- The identity invariant: agent ids are pairwise distinct and below the
id counter. -/
def IdInv (s : Sim) : Prop :=
  (s.agents.map Agent.id).Nodup ∧ ∀ a ∈ s.agents, a.id < s.nextId

/-- The full engine invariant. -/
def SimInv (s : Sim) : Prop := OccInv s ∧ IdInv s

/-- A valid visibility kernel for vision `v`: the concatenation of `v`
blocks, the block at index `i` a permutation of the four cardinal offsets
at distance `i + 1`. -/
def KernelValid (v : Nat) (k : List (Int × Int)) : Prop :=
  ∃ bs : List (List (Int × Int)), bs.length = v ∧ k = bs.flatten ∧
    ∀ i (h : i < bs.length), (bs.get ⟨i, h⟩).Perm (cardOffsets ((i : Int) + 1))

/-- A resource-field operation: one `grow()` or one `harvest(loc)`. -/
inductive RFOp where
  | growOp : RFOp
  | harvestOp : Loc → RFOp

/-- Apply one resource-field operation to the level grid. -/
def applyRFOp (grow_rate : Nat) (capacity arr : Loc → Int) : RFOp → (Loc → Int)
  | .growOp => grow grow_rate capacity arr
  | .harvestOp loc => (harvest arr loc).2

/-- Apply a finite sequence of resource-field operations in order. -/
def applyRFOps (grow_rate : Nat) (capacity : Loc → Int) (arr : Loc → Int) :
    List RFOp → (Loc → Int)
  | [] => arr
  | op :: ops => applyRFOps grow_rate capacity (applyRFOp grow_rate capacity arr op) ops

/-- The capacity grid as built by `make_capacity`, as a function. -/
def capGrid : Loc → Int := fun l => capacityAt l.1 l.2

/-! ### Capacity and resource-field lemmas -/

lemma tier_nonneg (d : Int) : 0 ≤ tier d := by
  unfold tier; split_ifs <;> norm_num

lemma tier_le_four (d : Int) : tier d ≤ 4 := by
  unfold tier; split_ifs <;> norm_num

lemma capacityAt_nonneg (i j : Int) : 0 ≤ capacityAt i j := by
  unfold capacityAt; exact tier_nonneg _

lemma capGrid_nonneg (l : Loc) : 0 ≤ capGrid l := capacityAt_nonneg _ _

lemma applyRFOps_bounds (gr : Nat) (cap : Loc → Int) (hcap : ∀ l, 0 ≤ cap l) :
    ∀ (ops : List RFOp) (arr : Loc → Int),
      (∀ l, 0 ≤ arr l ∧ arr l ≤ cap l) →
      ∀ l, 0 ≤ applyRFOps gr cap arr ops l ∧ applyRFOps gr cap arr ops l ≤ cap l := by
  intro ops
  induction ops with
  | nil => intro arr h l; exact h l
  | cons op ops ih =>
    intro arr h l
    refine ih _ ?_ l
    intro l'
    cases op with
    | growOp =>
      simp only [applyRFOp, grow]
      exact ⟨le_min (add_nonneg (h l').1 (by positivity)) (hcap l'), min_le_right _ _⟩
    | harvestOp loc =>
      simp only [applyRFOp, harvest]
      by_cases hl : l' = loc
      · simp [hl, hcap]
      · simp [hl]; exact h l'

lemma distSq_reflect1 (i j : Int) : distSq (15, 15) (50 - i) (50 - j) = distSq (35, 35) i j := by
  simp only [distSq]; ring

lemma distSq_reflect2 (i j : Int) : distSq (35, 35) (50 - i) (50 - j) = distSq (15, 15) i j := by
  simp only [distSq]; ring

lemma capacityAt_reflect (i j : Int) : capacityAt i j = capacityAt (50 - i) (50 - j) := by
  unfold capacityAt
  rw [distSq_reflect1, distSq_reflect2, min_comm]

/-! ### `make_locs` lemmas -/

lemma mem_make_locs (n m : Nat) (p : Loc) :
    p ∈ make_locs n m ↔ p.1 < n ∧ p.2 < m := by
  unfold make_locs
  simp only [List.mem_flatMap, List.mem_map, List.mem_range]
  constructor
  · rintro ⟨i, hi, j, hj, rfl⟩; exact ⟨hi, hj⟩
  · rintro ⟨h1, h2⟩; exact ⟨p.1, h1, p.2, h2, rfl⟩

lemma make_locs_succ (n m : Nat) :
    make_locs (n + 1) m = make_locs n m ++ (List.range m).map (fun j => (n, j)) := by
  unfold make_locs
  rw [List.range_succ, List.flatMap_append]
  simp

lemma make_locs_nodup (n m : Nat) : (make_locs n m).Nodup := by
  induction n with
  | zero => simp [make_locs]
  | succ n ih =>
    rw [make_locs_succ]
    refine List.Nodup.append ih ?_ ?_
    · exact List.Nodup.map (fun a b h => by injection h) (List.nodup_range m)
    · intro x hx hx'
      rcases (mem_make_locs n m x).1 hx with ⟨h1, _⟩
      rcases List.mem_map.1 hx' with ⟨j, _, rfl⟩
      exact absurd h1 (lt_irrefl n)

lemma make_locs_length (n m : Nat) : (make_locs n m).length = n * m := by
  induction n with
  | zero => simp [make_locs]
  | succ n ih =>
    rw [make_locs_succ, List.length_append, ih, List.length_map, List.length_range]
    ring

/-! ### `argmax` lemmas -/

lemma argmaxFrom_lt (t : List Int) : ∀ x, (argmaxFrom x t).1 < t.length + 1 := by
  induction t with
  | nil => intro x; simp [argmaxFrom]
  | cons y t ih =>
    intro x
    simp only [argmaxFrom]
    by_cases h : x < (argmaxFrom y t).2
    · simp only [h, if_pos]
      have := ih y
      simpa using Nat.succ_lt_succ this
    · simp [h]

lemma argmaxFrom_getD (t : List Int) :
    ∀ x, (x :: t).getD (argmaxFrom x t).1 0 = (argmaxFrom x t).2 := by
  induction t with
  | nil => intro x; simp [argmaxFrom]
  | cons y t ih =>
    intro x
    simp only [argmaxFrom]
    by_cases h : x < (argmaxFrom y t).2
    · simp only [h, if_pos]
      simpa using ih y
    · simp [h]

lemma argmaxFrom_le (t : List Int) :
    ∀ x, ∀ j < t.length + 1, (x :: t).getD j 0 ≤ (argmaxFrom x t).2 := by
  induction t with
  | nil =>
    intro x j hj
    simp only [List.length_nil] at hj
    have hj0 : j = 0 := by omega
    subst hj0
    simp [argmaxFrom]
  | cons y t ih =>
    intro x j hj
    simp only [argmaxFrom]
    by_cases h : x < (argmaxFrom y t).2
    · simp only [h, if_pos]
      cases j with
      | zero => simpa using le_of_lt h
      | succ j => simpa using ih y j (by simpa using hj)
    · simp only [h, if_neg]
      push_neg at h
      cases j with
      | zero => simp
      | succ j =>
        simp only [List.getD_cons_succ]
        exact le_trans (ih y j (by simpa using hj)) h

lemma argmaxFrom_first (t : List Int) :
    ∀ x, ∀ j < (argmaxFrom x t).1, (x :: t).getD j 0 < (argmaxFrom x t).2 := by
  induction t with
  | nil => intro x j hj; simp [argmaxFrom] at hj
  | cons y t ih =>
    intro x j hj
    simp only [argmaxFrom] at hj ⊢
    by_cases h : x < (argmaxFrom y t).2
    · simp only [h, if_pos] at hj ⊢
      cases j with
      | zero => simpa using h
      | succ j => simpa using ih y j (by simpa using hj)
    · simp [h] at hj

/-! ### Indexing helpers -/

lemma getD_mem_of_lt {α : Type} (l : List α) (i : Nat) (d : α) (h : i < l.length) :
    l.getD i d ∈ l := by
  rw [List.getD_eq_getElem l d h]
  exact List.getElem_mem h

lemma getD_map_of_lt (f : Loc → Int) (l : List Loc) (j : Nat) (d : Loc)
    (h : j < l.length) : (l.map f).getD j 0 = f (l.getD j d) := by
  rw [List.getD_eq_getElem _ _ (by simpa using h), List.getD_eq_getElem _ _ h,
    List.getElem_map]

/-! ### `wrapLoc` and the visibility kernel -/

lemma wrapLoc_lt (n : Nat) (hn : 0 < n) (center : Loc) (off : Int × Int) :
    (wrapLoc n center off).1 < n ∧ (wrapLoc n center off).2 < n := by
  unfold wrapLoc
  have hpos : (0 : Int) < (n : Int) := by exact_mod_cast hn
  constructor
  · have h1 := Int.emod_nonneg ((center.1 : Int) + off.1) (ne_of_gt hpos)
    have h2 := Int.emod_lt_of_pos ((center.1 : Int) + off.1) hpos
    omega
  · have h1 := Int.emod_nonneg ((center.2 : Int) + off.2) (ne_of_gt hpos)
    have h2 := Int.emod_lt_of_pos ((center.2 : Int) + off.2) hpos
    omega

lemma flatten_blocks_length (bs : List (List (Int × Int)))
    (h : ∀ b ∈ bs, b.length = 4) : bs.flatten.length = 4 * bs.length := by
  induction bs with
  | nil => simp
  | cons b bs ih =>
    have hb := h b (by simp)
    have := ih (fun b' hb' => h b' (by simp [hb']))
    simp only [List.flatten_cons, List.length_append, List.length_cons, this, hb]
    ring

lemma flatten_blocks_get (bs : List (List (Int × Int)))
    (h : ∀ b ∈ bs, b.length = 4) :
    ∀ j < bs.length, (bs.flatten.drop (4 * j)).take 4 = bs.getD j [] := by
  induction bs with
  | nil => intro j hj; simp at hj
  | cons b bs ih =>
    intro j hj
    cases j with
    | zero =>
      simp only [Nat.mul_zero, List.drop_zero, List.flatten_cons, List.getD_cons_zero]
      have hb := h b (by simp)
      rw [← hb, List.take_left]
    | succ j =>
      have hb := h b (by simp)
      simp only [List.flatten_cons, List.getD_cons_succ]
      have h4 : 4 * (j + 1) = b.length + 4 * j := by omega
      rw [h4, List.drop_append]
      exact ih (fun b' hb' => h b' (by simp [hb'])) j (by simpa using hj)

lemma mvl_blocks_len (v : Nat) (σ : Nat → List (Int × Int) → List (Int × Int))
    (hσ : ∀ d l, (σ d l).Perm l) :
    ∀ b ∈ (List.range v).map (fun k => σ (k + 1) (cardOffsets ((k : Int) + 1))),
      b.length = 4 := by
  intro b hb
  rcases List.mem_map.1 hb with ⟨k, _, rfl⟩
  simpa [cardOffsets] using (hσ (k + 1) (cardOffsets ((k : Int) + 1))).length_eq

lemma make_visible_locs_length (v : Nat) (σ : Nat → List (Int × Int) → List (Int × Int))
    (hσ : ∀ d l, (σ d l).Perm l) : (make_visible_locs v σ).length = 4 * v := by
  unfold make_visible_locs
  rw [flatten_blocks_length _ (mvl_blocks_len v σ hσ)]
  simp

lemma make_visible_locs_block (v : Nat) (σ : Nat → List (Int × Int) → List (Int × Int))
    (hσ : ∀ d l, (σ d l).Perm l) (j : Nat) (hj : j < v) :
    (((make_visible_locs v σ).drop (4 * j)).take 4).Perm (cardOffsets ((j : Int) + 1)) := by
  unfold make_visible_locs
  have hlen := mvl_blocks_len v σ hσ
  have hbl : ((List.range v).map (fun k => σ (k + 1) (cardOffsets ((k : Int) + 1)))).length = v := by
    simp
  rw [flatten_blocks_get _ hlen j (by rw [hbl]; exact hj)]
  have hget : ((List.range v).map (fun k => σ (k + 1) (cardOffsets ((k : Int) + 1)))).getD j []
      = σ (j + 1) (cardOffsets ((j : Int) + 1)) := by
    rw [List.getD_eq_getElem _ _ (by rw [hbl]; exact hj), List.getElem_map,
      List.getElem_range]
  rw [hget]
  exact hσ (j + 1) (cardOffsets ((j : Int) + 1))

lemma make_visible_locs_valid (v : Nat) (σ : Nat → List (Int × Int) → List (Int × Int))
    (hσ : ∀ d l, (σ d l).Perm l) : KernelValid v (make_visible_locs v σ) := by
  refine ⟨(List.range v).map (fun k => σ (k + 1) (cardOffsets ((k : Int) + 1))), by simp, rfl, ?_⟩
  intro i h
  have : ((List.range v).map (fun k => σ (k + 1) (cardOffsets ((k : Int) + 1)))).get ⟨i, h⟩
      = σ (i + 1) (cardOffsets ((i : Int) + 1)) := by
    rw [List.get_eq_getElem, List.getElem_map, List.getElem_range]
  rw [this]
  exact hσ (i + 1) (cardOffsets ((i : Int) + 1))

/-! ### `look_and_move` lemmas -/

lemma look_and_move_of_filter_nil (n : Nat) (occ : Finset Loc) (arr : Loc → Int)
    (center : Loc) (kernel : List (Int × Int))
    (h : (kernel.map (fun off => wrapLoc n center off)).filter
          (fun l => decide (l ∉ occ)) = []) :
    look_and_move n occ arr center kernel = center := by
  unfold look_and_move
  simp only [h]

lemma look_and_move_of_filter_cons (n : Nat) (occ : Finset Loc) (arr : Loc → Int)
    (center : Loc) (kernel : List (Int × Int)) (x : Loc) (E : List Loc)
    (h : (kernel.map (fun off => wrapLoc n center off)).filter
          (fun l => decide (l ∉ occ)) = x :: E) :
    look_and_move n occ arr center kernel
      = (x :: E).getD (argmax ((x :: E).map arr)) center := by
  unfold look_and_move
  simp only [h]

lemma look_and_move_not_mem (n : Nat) (occ : Finset Loc) (arr : Loc → Int)
    (center : Loc) (kernel : List (Int × Int)) (hc : center ∉ occ) :
    look_and_move n occ arr center kernel ∉ occ := by
  cases hE : (kernel.map (fun off => wrapLoc n center off)).filter
      (fun l => decide (l ∉ occ)) with
  | nil => rw [look_and_move_of_filter_nil n occ arr center kernel hE]; exact hc
  | cons x E =>
    rw [look_and_move_of_filter_cons n occ arr center kernel x E hE]
    by_cases hi : argmax ((x :: E).map arr) < (x :: E).length
    · have hmem : (x :: E).getD (argmax ((x :: E).map arr)) center
          ∈ (kernel.map (fun off => wrapLoc n center off)).filter
              (fun l => decide (l ∉ occ)) := by
        rw [hE]; exact getD_mem_of_lt _ _ _ hi
      have := (List.mem_filter.1 hmem).2
      simpa using this
    · push_neg at hi
      rw [List.getD_eq_default _ _ hi]
      exact hc

/-! ### Agent-list decomposition (object identity) -/

lemma agent_decomp {L : List Agent} {a : Agent}
    (hN : (L.map Agent.id).Nodup) (ha : a ∈ L) :
    ∃ L₁ L₂, L = L₁ ++ a :: L₂ ∧
      removeFirstAgent a.id L = L₁ ++ L₂ ∧
      (∀ a' : Agent, a'.id = a.id → setAgent a' L = L₁ ++ a' :: L₂) ∧
      a.id ∉ (L₁ ++ L₂).map Agent.id := by
  induction L with
  | nil => cases ha
  | cons b t ih =>
    simp only [List.map_cons, List.nodup_cons] at hN
    rcases hN with ⟨hb, ht⟩
    by_cases hab : b = a
    · subst hab
      refine ⟨[], t, by simp, ?_, ?_, ?_⟩
      · simp [removeFirstAgent]
      · intro a' ha'; simp [setAgent, ha']
      · simpa using hb
    · have hat : a ∈ t := by
        rcases List.mem_cons.1 ha with h | h
        · exact absurd h.symm hab
        · exact h
      have hbid : b.id ≠ a.id := by
        intro h
        exact hb (h ▸ List.mem_map_of_mem Agent.id hat)
      rcases ih ht hat with ⟨L₁, L₂, hL, hrm, hset, hnot⟩
      refine ⟨b :: L₁, L₂, by simp [hL], ?_, ?_, ?_⟩
      · simp only [removeFirstAgent, if_neg hbid, hrm, List.cons_append]
      · intro a' ha'
        have : b.id ≠ a'.id := ha' ▸ hbid
        simp only [setAgent, if_neg this, hset a' ha', List.cons_append]
      · simp only [List.cons_append, List.map_cons, List.mem_cons]
        rintro (h | h)
        · exact hbid h.symm
        · exact hnot h

lemma mem_append_of_ne {L₁ L₂ : List Agent} {a b : Agent}
    (hb : b ∈ L₁ ++ a :: L₂) (hne : b.id ≠ a.id) : b ∈ L₁ ++ L₂ := by
  rcases List.mem_append.1 hb with h | h
  · exact List.mem_append.2 (Or.inl h)
  · rcases List.mem_cons.1 h with h | h
    · exact absurd (congrArg Agent.id h) hne
    · exact List.mem_append.2 (Or.inr h)

/-! ### `toFinset` manipulation -/

lemma toFinset_middle (xs ys : List Loc) (x : Loc) :
    (xs ++ x :: ys).toFinset = insert x (xs ++ ys).toFinset := by
  ext z
  simp only [List.mem_toFinset, List.mem_append, List.mem_cons, Finset.mem_insert]
  tauto

lemma toFinset_middle_erase (xs ys : List Loc) (x : Loc)
    (hx : x ∉ xs ++ ys) :
    (xs ++ x :: ys).toFinset.erase x = (xs ++ ys).toFinset := by
  ext z
  simp only [Finset.mem_erase, List.mem_toFinset, List.mem_append, List.mem_cons]
  constructor
  · rintro ⟨hne, h | h | h⟩
    · exact Or.inl h
    · exact absurd h hne
    · exact Or.inr h
  · intro h
    refine ⟨?_, by tauto⟩
    rintro rfl
    exact hx (List.mem_append.2 h)

lemma toFinset_snoc (xs : List Loc) (x : Loc) :
    (xs ++ [x]).toFinset = insert x xs.toFinset := by
  ext z
  simp only [List.mem_toFinset, List.mem_append, List.mem_cons, Finset.mem_insert,
    List.mem_singleton]
  tauto

lemma nodup_map_middle_of (xs ys : List Loc) (x y : Loc)
    (h : (xs ++ x :: ys).Nodup) (hy : y ∉ xs ++ ys) : (xs ++ y :: ys).Nodup := by
  have hxy : (xs ++ ys).Nodup := by
    refine List.Nodup.sublist ?_ h
    exact List.Sublist.append_left (List.sublist_cons_self x ys) xs
  rw [List.nodup_middle]
  rw [List.nodup_cons]
  exact ⟨hy, hxy⟩

/-! ### Construction lemmas -/

lemma mkAgentsFrom_map_loc (attrs : Nat → AgentAttrs) :
    ∀ (ls : List Loc) (i : Nat), (mkAgentsFrom attrs i ls).map Agent.loc = ls := by
  intro ls
  induction ls with
  | nil => intro i; simp [mkAgentsFrom]
  | cons l ls ih => intro i; simp [mkAgentsFrom, ih]

lemma mkAgentsFrom_length (attrs : Nat → AgentAttrs) :
    ∀ (ls : List Loc) (i : Nat), (mkAgentsFrom attrs i ls).length = ls.length := by
  intro ls
  induction ls with
  | nil => intro i; simp [mkAgentsFrom]
  | cons l ls ih => intro i; simp [mkAgentsFrom, ih]

lemma mkAgentsFrom_id_bounds (attrs : Nat → AgentAttrs) :
    ∀ (ls : List Loc) (i : Nat), ∀ b ∈ mkAgentsFrom attrs i ls,
      i ≤ b.id ∧ b.id < i + ls.length := by
  intro ls
  induction ls with
  | nil => intro i b hb; simp [mkAgentsFrom] at hb
  | cons l ls ih =>
    intro i b hb
    simp only [mkAgentsFrom, List.mem_cons] at hb
    rcases hb with rfl | hb
    · simp
    · have := ih (i + 1) b hb
      simp only [List.length_cons]
      omega

lemma mkAgentsFrom_ids_nodup (attrs : Nat → AgentAttrs) :
    ∀ (ls : List Loc) (i : Nat), ((mkAgentsFrom attrs i ls).map Agent.id).Nodup := by
  intro ls
  induction ls with
  | nil => intro i; simp [mkAgentsFrom]
  | cons l ls ih =>
    intro i
    simp only [mkAgentsFrom, List.map_cons, List.nodup_cons]
    refine ⟨?_, ih (i + 1)⟩
    intro hmem
    rcases List.mem_map.1 hmem with ⟨b, hb, hid⟩
    have := (mkAgentsFrom_id_bounds attrs ls (i + 1) b hb).1
    omega

lemma mkSim_none_iff (cfg : Config) (locs : List Loc) (attrs : Nat → AgentAttrs) :
    mkSim cfg locs attrs = none ↔ locs.length < cfg.num_agents := by
  unfold mkSim
  by_cases h : cfg.num_agents ≤ locs.length
  · simp only [if_pos h]
    simp
    omega
  · simp only [if_neg h]
    simp
    omega

lemma mkSim_fields (cfg : Config) (locs : List Loc) (attrs : Nat → AgentAttrs)
    (s : Sim) (h : mkSim cfg locs attrs = some s) :
    s.n = cfg.n ∧ s.growRate = cfg.grow_rate ∧ s.replace = cfg.replace ∧
    s.capacity = capGrid ∧ s.array = capGrid ∧
    s.agents = mkAgentsFrom attrs 0 (locs.take cfg.num_agents) ∧
    s.occupied = ((mkAgentsFrom attrs 0 (locs.take cfg.num_agents)).map Agent.loc).toFinset ∧
    s.agentCountSeq = [] ∧ s.nextId = cfg.num_agents ∧
    cfg.num_agents ≤ locs.length := by
  unfold mkSim at h
  by_cases hle : cfg.num_agents ≤ locs.length
  · rw [if_pos hle] at h
    have := Option.some.inj h
    subst this
    exact ⟨rfl, rfl, rfl, rfl, rfl, rfl, rfl, rfl, rfl, hle⟩
  · rw [if_neg hle] at h
    cases h

lemma mkSim_inv (cfg : Config) (locs : List Loc) (attrs : Nat → AgentAttrs)
    (s : Sim) (hnd : locs.Nodup) (h : mkSim cfg locs attrs = some s) : SimInv s := by
  obtain ⟨-, -, -, -, -, hagents, hocc, -, hnext, hle⟩ := mkSim_fields cfg locs attrs s h
  constructor
  · constructor
    · rw [hagents, mkAgentsFrom_map_loc]
      exact List.Nodup.sublist (List.take_sublist _ _) hnd
    · rw [hocc, hagents]
  · constructor
    · rw [hagents]; exact mkAgentsFrom_ids_nodup attrs _ 0
    · intro a ha
      rw [hagents] at ha
      have := (mkAgentsFrom_id_bounds attrs _ 0 a ha).2
      rw [hnext]
      have hlen : (locs.take cfg.num_agents).length = cfg.num_agents := by
        rw [List.length_take]
        omega
      omega

lemma firstFree_not_mem (occ : Finset Loc) :
    ∀ (ls : List Loc) (l : Loc), firstFree occ ls = some l → l ∉ occ := by
  intro ls
  induction ls with
  | nil => intro l h; cases h
  | cons x ls ih =>
    intro l h
    simp only [firstFree] at h
    by_cases hx : x ∈ occ
    · rw [if_pos hx] at h; exact ih l h
    · rw [if_neg hx] at h
      have := Option.some.inj h
      subst this
      exact hx

/-! ### The activation specification -/

lemma mem_append_middle {L₁ L₂ : List Agent} (x b : Agent) (h : b ∈ L₁ ++ L₂) :
    b ∈ L₁ ++ x :: L₂ := by
  rcases List.mem_append.1 h with h | h
  · exact List.mem_append.2 (Or.inl h)
  · exact List.mem_append.2 (Or.inr (List.mem_cons.2 (Or.inr h)))

/-- Everything one activation guarantees, relative to the pre-state `s` and
the activated agent `a`. -/
structure ActOut (s : Sim) (a : Agent) (s' : Sim) (r : ActRec) : Prop where
  inv : SimInv s'
  nextLe : s.nextId ≤ s'.nextId
  frameN : s'.n = s.n
  frameGrow : s'.growRate = s.growRate
  frameRep : s'.replace = s.replace
  frameCap : s'.capacity = s.capacity
  frameSeq : s'.agentCountSeq = s.agentCountSeq
  keep : ∀ b ∈ s.agents, b.id ≠ a.id → b ∈ s'.agents
  lenRep : s.replace = true → s'.agents.length = s.agents.length
  lenAlive : r.died = none → s'.agents.length = s.agents.length
  lenDead : s.replace = false → r.died.isSome = true → s'.agents.length + 1 = s.agents.length
  ghost : ∀ d, d ∉ s.agents.map Agent.id → d < s.nextId → d ∉ s'.agents.map Agent.id
  diedSpec : ∀ d, r.died = some d → d ∉ s'.agents.map Agent.id ∧ d < s'.nextId
  spawnSpec : ∀ na, r.spawn = some na → na ∈ s'.agents ∧ na.id = s.nextId
  recCenter : r.center = a.loc
  recOcc0 : r.occ0 = s.occupied
  recHocc : r.hocc = s.occupied.erase a.loc
  harvFree : r.hloc ∉ r.hocc
  aliveOcc : r.died = none → s'.occupied = insert r.hloc (s.occupied.erase a.loc)
  aliveSpawn : r.died = none → r.spawn = none


lemma activate_spec (s : Sim) (a : Agent) (c : Choice) (s' : Sim) (r : ActRec)
    (hInv : SimInv s) (ha : a ∈ s.agents)
    (h : activate s a c = some (s', r)) : ActOut s a s' r := by
  obtain ⟨⟨hLoc, hOcc⟩, hIds, hLt⟩ := hInv
  obtain ⟨L₁, L₂, hL, hrm, hset, hidnot⟩ := agent_decomp hIds ha
  have hMapLoc : s.agents.map Agent.loc
      = L₁.map Agent.loc ++ a.loc :: L₂.map Agent.loc := by
    rw [hL]; simp
  have hMapId : s.agents.map Agent.id
      = L₁.map Agent.id ++ a.id :: L₂.map Agent.id := by
    rw [hL]; simp
  have hNd : (L₁.map Agent.loc ++ a.loc :: L₂.map Agent.loc).Nodup := hMapLoc ▸ hLoc
  have hNdC := List.nodup_middle.mp hNd
  have haNotXY : a.loc ∉ L₁.map Agent.loc ++ L₂.map Agent.loc :=
    (List.nodup_cons.mp hNdC).1
  have hXYnodup : (L₁.map Agent.loc ++ L₂.map Agent.loc).Nodup :=
    (List.nodup_cons.mp hNdC).2
  have hIdsM : (L₁.map Agent.id ++ a.id :: L₂.map Agent.id).Nodup := hMapId ▸ hIds
  have hIdXY : (L₁.map Agent.id ++ L₂.map Agent.id).Nodup :=
    (List.nodup_cons.mp (List.nodup_middle.mp hIdsM)).2
  have hOcc2 : s.occupied = (L₁.map Agent.loc ++ a.loc :: L₂.map Agent.loc).toFinset := by
    rw [hOcc, hMapLoc]
  have hErase : s.occupied.erase a.loc
      = (L₁.map Agent.loc ++ L₂.map Agent.loc).toFinset := by
    rw [hOcc2, toFinset_middle_erase _ _ _ haNotXY]
  have hdest : moveDest s a c ∉ s.occupied.erase a.loc :=
    look_and_move_not_mem _ _ _ _ _ (Finset.not_mem_erase _ _)
  have hdestList : moveDest s a c ∉ L₁.map Agent.loc ++ L₂.map Agent.loc := by
    intro hm; exact hdest (by rw [hErase]; exact List.mem_toFinset.2 hm)
  have hmemXY : ∀ b ∈ L₁ ++ L₂, b ∈ s.agents := by
    intro b hb; rw [hL]; exact mem_append_middle a b hb
  have hmemXYid : ∀ d ∈ (L₁ ++ L₂).map Agent.id, d ∈ s.agents.map Agent.id := by
    intro d hd
    simp only [List.map_append] at hd
    rw [hMapId]
    rcases List.mem_append.1 hd with h1 | h1
    · exact List.mem_append.2 (Or.inl h1)
    · exact List.mem_append.2 (Or.inr (List.mem_cons.2 (Or.inr h1)))
  by_cases hdead : (movedAgent s a c).sugar ≤ 0 ∨
      (movedAgent s a c).lifespan < (movedAgent s a c).age
  · -- the agent dies
    unfold activate at h
    rw [if_pos hdead] at h
    cases hrep : s.replace with
    | false =>
      rw [hrep] at h
      rw [if_neg (by simp)] at h
      obtain ⟨hs', hr⟩ := Prod.ext_iff.mp (Option.some.inj h)
      subst hs'; subst hr
      refine ⟨⟨⟨?_, ?_⟩, ?_, ?_⟩, le_refl _, rfl, rfl, hrep.symm, rfl, rfl, ?_, ?_, ?_, ?_,
        ?_, ?_, ?_, rfl, rfl, rfl, hdest, ?_, ?_⟩
      · show ((removeFirstAgent a.id s.agents).map Agent.loc).Nodup
        rw [hrm]; simpa using hXYnodup
      · show s.occupied.erase a.loc
          = ((removeFirstAgent a.id s.agents).map Agent.loc).toFinset
        rw [hrm, hErase]; simp
      · show ((removeFirstAgent a.id s.agents).map Agent.id).Nodup
        rw [hrm]; simpa using hIdXY
      · intro b hb
        show b.id < s.nextId
        rw [hrm] at hb
        exact hLt b (hmemXY b hb)
      · intro b hb hne
        show b ∈ removeFirstAgent a.id s.agents
        rw [hrm]
        rw [hL] at hb
        exact mem_append_of_ne hb hne
      · intro h2; rw [hrep] at h2; exact Bool.noConfusion h2
      · intro h2; exact Option.noConfusion h2
      · intro _ _
        show (removeFirstAgent a.id s.agents).length + 1 = s.agents.length
        rw [hrm, hL]; simp; omega
      · intro d hd _ hdm
        rw [hrm] at hdm
        exact hd (hmemXYid d hdm)
      · intro d hd
        obtain rfl : a.id = d := Option.some.inj hd
        refine ⟨?_, hLt a ha⟩
        show a.id ∉ (removeFirstAgent a.id s.agents).map Agent.id
        rw [hrm]; exact hidnot
      · intro na hna; exact Option.noConfusion hna
      · intro h2; exact Option.noConfusion h2
      · intro h2; exact Option.noConfusion h2
    | true =>
      rw [hrep] at h
      rw [if_pos rfl] at h
      cases hff : firstFree (s.occupied.erase a.loc) c.spawnLocs with
      | none => rw [hff] at h; cases h
      | some nl =>
        rw [hff] at h
        obtain ⟨hs', hr⟩ := Prod.ext_iff.mp (Option.some.inj h)
        subst hs'; subst hr
        have hnl : nl ∉ s.occupied.erase a.loc := firstFree_not_mem _ _ _ hff
        have hnlList : nl ∉ L₁.map Agent.loc ++ L₂.map Agent.loc := by
          intro hm; exact hnl (by rw [hErase]; exact List.mem_toFinset.2 hm)
        refine ⟨⟨⟨?_, ?_⟩, ?_, ?_⟩, Nat.le_succ _, rfl, rfl, hrep.symm, rfl, rfl, ?_, ?_, ?_, ?_,
          ?_, ?_, ?_, rfl, rfl, rfl, hdest, ?_, ?_⟩
        · show ((removeFirstAgent a.id s.agents ++ [newAgent s nl c]).map Agent.loc).Nodup
          rw [hrm]
          simp only [List.map_append, List.map_cons, List.map_nil]
          refine List.Nodup.append (by simpa using hXYnodup) (by simp) ?_
          intro x hx hx'
          simp only [List.mem_singleton] at hx'
          subst hx'
          exact hnlList hx
        · show insert nl (s.occupied.erase a.loc)
            = ((removeFirstAgent a.id s.agents ++ [newAgent s nl c]).map Agent.loc).toFinset
          rw [hrm]
          simp only [List.map_append, List.map_cons, List.map_nil]
          rw [toFinset_snoc, hErase]
          rfl
        · show ((removeFirstAgent a.id s.agents ++ [newAgent s nl c]).map Agent.id).Nodup
          rw [hrm]
          simp only [List.map_append, List.map_cons, List.map_nil]
          refine List.Nodup.append (by simpa using hIdXY) (by simp) ?_
          intro x hx hx'
          simp only [List.mem_singleton] at hx'
          subst hx'
          rcases List.mem_append.1 hx with h1 | h1 <;>
          · rcases List.mem_map.1 h1 with ⟨b, hb, hbid⟩
            have := hLt b (hmemXY b (by
              first
              | exact List.mem_append.2 (Or.inl hb)
              | exact List.mem_append.2 (Or.inr hb)))
            have hb2 : b.id = s.nextId := hbid
            omega
        · intro b hb
          show b.id < s.nextId + 1
          rw [hrm] at hb
          rcases List.mem_append.1 hb with h1 | h1
          · have := hLt b (hmemXY b h1); omega
          · simp only [List.mem_singleton] at h1
            subst h1
            simp [newAgent]
        · intro b hb hne
          show b ∈ removeFirstAgent a.id s.agents ++ [newAgent s nl c]
          rw [hrm]
          rw [hL] at hb
          exact List.mem_append.2 (Or.inl (mem_append_of_ne hb hne))
        · intro _
          show (removeFirstAgent a.id s.agents ++ [newAgent s nl c]).length = s.agents.length
          rw [hrm, hL]
          simp
        · intro h2; exact Option.noConfusion h2
        · intro h2; rw [hrep] at h2; exact Bool.noConfusion h2
        · intro d hd hlt hdm
          show False
          rw [hrm] at hdm
          simp only [List.map_append, List.map_cons, List.map_nil] at hdm
          rcases List.mem_append.1 hdm with h1 | h1
          · exact hd (hmemXYid d (by simpa using h1))
          · simp only [List.mem_singleton, newAgent] at h1
            omega
        · intro d hd
          obtain rfl : a.id = d := Option.some.inj hd
          refine ⟨?_, by have := hLt a ha; show a.id < s.nextId + 1; omega⟩
          show a.id ∉ (removeFirstAgent a.id s.agents ++ [newAgent s nl c]).map Agent.id
          intro hdm
          rw [hrm] at hdm
          simp only [List.map_append, List.map_cons, List.map_nil] at hdm
          rcases List.mem_append.1 hdm with h1 | h1
          · exact hidnot (by simpa using h1)
          · simp only [List.mem_singleton, newAgent] at h1
            have := hLt a ha
            omega
        · intro na hna
          obtain rfl : newAgent s nl c = na := Option.some.inj hna
          refine ⟨?_, rfl⟩
          show newAgent s nl c ∈ removeFirstAgent a.id s.agents ++ [newAgent s nl c]
          simp
        · intro h2; exact Option.noConfusion h2
        · intro h2; exact Option.noConfusion h2
  · -- the agent survives
    unfold activate at h
    rw [if_neg hdead] at h
    obtain ⟨hs', hr⟩ := Prod.ext_iff.mp (Option.some.inj h)
    subst hs'; subst hr
    have hsetEq : setAgent (movedAgent s a c) s.agents
        = L₁ ++ movedAgent s a c :: L₂ := hset _ rfl
    refine ⟨⟨⟨?_, ?_⟩, ?_, ?_⟩, le_refl _, rfl, rfl, rfl, rfl, rfl, ?_, ?_, ?_, ?_,
      ?_, ?_, ?_, rfl, rfl, rfl, hdest, ?_, ?_⟩
    · show ((setAgent (movedAgent s a c) s.agents).map Agent.loc).Nodup
      rw [hsetEq]
      simp only [List.map_append, List.map_cons]
      exact nodup_map_middle_of _ _ a.loc _ hNd hdestList
    · show insert (moveDest s a c) (s.occupied.erase a.loc)
        = ((setAgent (movedAgent s a c) s.agents).map Agent.loc).toFinset
      rw [hsetEq]
      simp only [List.map_append, List.map_cons]
      rw [toFinset_middle, hErase]
      rfl
    · show ((setAgent (movedAgent s a c) s.agents).map Agent.id).Nodup
      rw [hsetEq]
      simp only [List.map_append, List.map_cons]
      exact hIdsM
    · intro b hb
      show b.id < s.nextId
      rw [hsetEq] at hb
      rcases List.mem_append.1 hb with h1 | h1
      · exact hLt b (by rw [hL]; exact List.mem_append.2 (Or.inl h1))
      · rcases List.mem_cons.1 h1 with rfl | h2
        · exact hLt a ha
        · exact hLt b (by rw [hL]; exact List.mem_append.2 (Or.inr (List.mem_cons.2 (Or.inr h2))))
    · intro b hb hne
      show b ∈ setAgent (movedAgent s a c) s.agents
      rw [hsetEq]
      rw [hL] at hb
      exact mem_append_middle _ b (mem_append_of_ne hb hne)
    · intro _
      show (setAgent (movedAgent s a c) s.agents).length = s.agents.length
      rw [hsetEq, hL]; simp
    · intro _
      show (setAgent (movedAgent s a c) s.agents).length = s.agents.length
      rw [hsetEq, hL]; simp
    · intro _ hds; exact Bool.noConfusion hds
    · intro d hd hlt hdm
      apply hd
      rw [hsetEq] at hdm
      simp only [List.map_append, List.map_cons] at hdm
      rw [hMapId]
      exact hdm
    · intro d hd; exact Option.noConfusion hd
    · intro na hna; exact Option.noConfusion hna
    · intro _; rfl
    · intro _; rfl

/-! ### The step-loop specification -/

/-- Everything one pass of the agent-processing loop guarantees, with `N` a
bound separating the ids of the activation snapshot from the ids of agents
spawned during the step. -/
structure RunOut (N : Nat) (s s' : Sim) (log : List ActRec) : Prop where
  inv : SimInv s'
  nextLe : s.nextId ≤ s'.nextId
  frameN : s'.n = s.n
  frameGrow : s'.growRate = s.growRate
  frameRep : s'.replace = s.replace
  frameCap : s'.capacity = s.capacity
  frameSeq : s'.agentCountSeq = s.agentCountSeq
  lenRep : s.replace = true → s'.agents.length = s.agents.length
  lenNoRep : s.replace = false →
    s'.agents.length + (log.filterMap ActRec.died).length = s.agents.length
  ghost : ∀ d, d ∉ s.agents.map Agent.id → d < s.nextId → d ∉ s'.agents.map Agent.id
  deaths : ∀ d ∈ log.filterMap ActRec.died, d ∉ s'.agents.map Agent.id
  keepHigh : ∀ b ∈ s.agents, N ≤ b.id → b ∈ s'.agents
  spawns : ∀ na ∈ log.filterMap ActRec.spawn, na ∈ s'.agents
  harvFree : ∀ r ∈ log, r.hloc ∉ r.hocc
  releases : ∀ r ∈ log, r.center ∈ r.occ0

lemma runAgents_spec (cs : Nat → Choice) (N : Nat) :
    ∀ (rest : List Agent) (k : Nat) (s s' : Sim) (log : List ActRec),
      SimInv s → (∀ b ∈ rest, b ∈ s.agents) → ((rest.map Agent.id).Nodup) →
      (∀ b ∈ rest, b.id < N) → N ≤ s.nextId →
      runAgents cs k s rest = some (s', log) → RunOut N s s' log := by
  intro rest
  induction rest with
  | nil =>
    intro k s s' log hInv _ _ _ _ hrun
    obtain ⟨hs, hlog⟩ := Prod.ext_iff.mp (Option.some.inj hrun)
    subst hs; subst hlog
    exact ⟨hInv, le_refl _, rfl, rfl, rfl, rfl, rfl, fun _ => rfl, fun _ => rfl,
      fun d hd _ => hd, by simp, fun b hb _ => hb, by simp, by simp, by simp⟩
  | cons a rest ih =>
    intro k s s' log hInv hrest hrids hridlt hNle hrun
    cases hact : activate s a (cs k) with
    | none =>
      simp only [runAgents, hact] at hrun
      exact Option.noConfusion hrun
    | some p =>
      obtain ⟨s1, r⟩ := p
      cases hrun2 : runAgents cs (k + 1) s1 rest with
      | none =>
        simp only [runAgents, hact, hrun2] at hrun
        exact Option.noConfusion hrun
      | some q =>
        obtain ⟨s2, log'⟩ := q
        simp only [runAgents, hact, hrun2, Option.some.injEq, Prod.mk.injEq] at hrun
        obtain ⟨hs, hlog⟩ := hrun
        subst hs; subst hlog
        have ha : a ∈ s.agents := hrest a (List.mem_cons.2 (Or.inl rfl))
        have hA := activate_spec s a (cs k) s1 r hInv ha hact
        have hrids' : (rest.map Agent.id).Nodup := (List.nodup_cons.mp (by simpa using hrids)).2
        have haid : a.id ∉ rest.map Agent.id := (List.nodup_cons.mp (by simpa using hrids)).1
        have hrest1 : ∀ b ∈ rest, b ∈ s1.agents := by
          intro b hb
          refine hA.keep b (hrest b (List.mem_cons.2 (Or.inr hb))) ?_
          intro hbid
          exact haid (hbid ▸ List.mem_map_of_mem Agent.id hb)
        have hR := ih (k + 1) s1 s2 log' hA.inv hrest1 hrids'
          (fun b hb => hridlt b (List.mem_cons.2 (Or.inr hb)))
          (le_trans hNle hA.nextLe) hrun2
        have haidN : a.id < N := hridlt a (List.mem_cons.2 (Or.inl rfl))
        refine ⟨hR.inv, le_trans hA.nextLe hR.nextLe,
          hR.frameN.trans hA.frameN, hR.frameGrow.trans hA.frameGrow,
          hR.frameRep.trans hA.frameRep, hR.frameCap.trans hA.frameCap,
          hR.frameSeq.trans hA.frameSeq, ?_, ?_, ?_, ?_, ?_, ?_, ?_, ?_⟩
        · intro hrep
          have h1 := hR.lenRep (hA.frameRep.trans hrep)
          rw [h1, hA.lenRep hrep]
        · intro hrep
          have h1 := hR.lenNoRep (hA.frameRep.trans hrep)
          cases hdied : r.died with
          | none =>
            have h2 := hA.lenAlive hdied
            simp only [List.filterMap_cons, hdied]
            omega
          | some d =>
            have h2 := hA.lenDead hrep (by rw [hdied]; rfl)
            simp only [List.filterMap_cons, hdied, List.length_cons]
            omega
        · intro d hd hlt
          exact hR.ghost d (hA.ghost d hd hlt) (lt_of_lt_of_le hlt hA.nextLe)
        · intro d hd
          simp only [List.filterMap_cons] at hd
          cases hdied : r.died with
          | none =>
            rw [hdied] at hd
            exact hR.deaths d hd
          | some d0 =>
            rw [hdied] at hd
            rcases List.mem_cons.1 hd with rfl | hd'
            · obtain ⟨hnot, hlt⟩ := hA.diedSpec d hdied
              exact hR.ghost d hnot hlt
            · exact hR.deaths d hd'
        · intro b hb hNb
          refine hR.keepHigh b (hA.keep b hb ?_) hNb
          intro hbid
          omega
        · intro na hna
          simp only [List.filterMap_cons] at hna
          cases hsp : r.spawn with
          | none =>
            rw [hsp] at hna
            exact hR.spawns na hna
          | some na0 =>
            rw [hsp] at hna
            rcases List.mem_cons.1 hna with rfl | hna'
            · obtain ⟨hmem, hid⟩ := hA.spawnSpec na hsp
              exact hR.keepHigh na hmem (by omega)
            · exact hR.spawns na hna'
        · intro r' hr'
          rcases List.mem_cons.1 hr' with rfl | hr''
          · exact hA.harvFree
          · exact hR.harvFree r' hr''
        · intro r' hr'
          rcases List.mem_cons.1 hr' with rfl | hr''
          · rw [hA.recCenter, hA.recOcc0]
            obtain ⟨⟨_, hOcc⟩, _⟩ := hInv
            rw [hOcc]
            exact List.mem_toFinset.2 (List.mem_map_of_mem Agent.loc ha)
          · exact hR.releases r' hr''

lemma stepSim_spec (s : Sim) (order : List Agent) (cs : Nat → Choice)
    (s' : Sim) (log : List ActRec) (h : stepSim s order cs = some (s', log)) :
    ∃ s1, runAgents cs 0 s order = some (s1, log) ∧
      s'.agents = s1.agents ∧ s'.occupied = s1.occupied ∧ s'.n = s1.n ∧
      s'.growRate = s1.growRate ∧ s'.replace = s1.replace ∧
      s'.capacity = s1.capacity ∧ s'.nextId = s1.nextId ∧
      s'.agentCountSeq = s1.agentCountSeq ++ [s1.agents.length] ∧
      s'.array = grow s1.growRate s1.capacity s1.array := by
  unfold stepSim at h
  cases hrun : runAgents cs 0 s order with
  | none =>
    simp only [hrun] at h
    exact Option.noConfusion h
  | some p =>
    obtain ⟨s1, log1⟩ := p
    simp only [hrun, Option.some.injEq, Prod.mk.injEq] at h
    obtain ⟨hs, hl⟩ := h
    subst hl
    refine ⟨s1, rfl, ?_⟩
    rw [← hs]
    exact ⟨rfl, rfl, rfl, rfl, rfl, rfl, rfl, rfl, rfl⟩

lemma reachable_invariant (s : Sim) (h : Reachable s) :
    SimInv s ∧ s.capacity = capGrid := by
  induction h with
  | init cfg locs attrs s0 hperm hmk =>
    have hnd : locs.Nodup := (hperm.nodup_iff).mpr (make_locs_nodup _ _)
    exact ⟨mkSim_inv _ _ _ _ hnd hmk, (mkSim_fields _ _ _ _ hmk).2.2.2.1⟩
  | step s0 order cs s' log hreach hperm hstep ih =>
    obtain ⟨hInv, hcap⟩ := ih
    obtain ⟨s1, hrun, hag, hocc, hn, hgr, hrep, hcap', hnext, hseq, harr⟩ :=
      stepSim_spec _ _ _ _ _ hstep
    have hR := runAgents_spec cs s0.nextId order 0 s0 s1 log hInv
      (fun b hb => hperm.subset hb)
      (((hperm.map Agent.id).nodup_iff).mpr hInv.2.1)
      (fun b hb => hInv.2.2 b (hperm.subset hb)) (le_refl _) hrun
    refine ⟨⟨⟨?_, ?_⟩, ?_, ?_⟩, ?_⟩
    · rw [hag]; exact hR.inv.1.1
    · rw [hocc, hag]; exact hR.inv.1.2
    · rw [hag]; exact hR.inv.2.1
    · intro a ha
      rw [hag] at ha
      rw [hnext]
      exact hR.inv.2.2 a ha
    · rw [hcap', hR.frameCap, hcap]

lemma runAgents_nodeath (cs : Nat → Choice) :
    ∀ (rest : List Agent) (k : Nat) (s : Sim) (P : Finset Loc) (s' : Sim) (log : List ActRec),
      SimInv s → (∀ b ∈ rest, b ∈ s.agents) → ((rest.map Agent.id).Nodup) →
      (∀ x ∈ P, x ∈ s.occupied) → (∀ b ∈ rest, b.loc ∉ P) →
      runAgents cs k s rest = some (s', log) → (∀ r ∈ log, r.died = none) →
      (log.map ActRec.hloc).Nodup ∧ ∀ x ∈ log.map ActRec.hloc, x ∉ P := by
  intro rest
  induction rest with
  | nil =>
    intro k s P s' log _ _ _ _ _ hrun _
    obtain ⟨hs, hlog⟩ := Prod.ext_iff.mp (Option.some.inj hrun)
    subst hlog
    simp
  | cons a rest ih =>
    intro k s P s' log hInv hrest hrids hP hrestP hrun hnd
    cases hact : activate s a (cs k) with
    | none =>
      simp only [runAgents, hact] at hrun
      exact Option.noConfusion hrun
    | some p =>
      obtain ⟨s1, r⟩ := p
      cases hrun2 : runAgents cs (k + 1) s1 rest with
      | none =>
        simp only [runAgents, hact, hrun2] at hrun
        exact Option.noConfusion hrun
      | some q =>
        obtain ⟨s2, log'⟩ := q
        simp only [runAgents, hact, hrun2, Option.some.injEq, Prod.mk.injEq] at hrun
        obtain ⟨hs, hlog⟩ := hrun
        subst hs; subst hlog
        have ha : a ∈ s.agents := hrest a (List.mem_cons.2 (Or.inl rfl))
        have hA := activate_spec s a (cs k) s1 r hInv ha hact
        have hdied : r.died = none := hnd r (List.mem_cons.2 (Or.inl rfl))
        have hocc1 : s1.occupied = insert r.hloc (s.occupied.erase a.loc) :=
          hA.aliveOcc hdied
        have haP : a.loc ∉ P := hrestP a (List.mem_cons.2 (Or.inl rfl))
        have hhX : r.hloc ∉ s.occupied.erase a.loc := by
          have := hA.harvFree
          rw [hA.recHocc] at this
          exact this
        have hhlocP : r.hloc ∉ P := by
          intro hmem
          refine hhX (Finset.mem_erase.2 ⟨?_, hP _ hmem⟩)
          intro heq
          rw [heq] at hmem
          exact haP hmem
        have hrids' : (rest.map Agent.id).Nodup := (List.nodup_cons.mp (by simpa using hrids)).2
        have haid : a.id ∉ rest.map Agent.id := (List.nodup_cons.mp (by simpa using hrids)).1
        have hbne : ∀ b ∈ rest, b.id ≠ a.id := by
          intro b hb hbid
          exact haid (hbid ▸ List.mem_map_of_mem Agent.id hb)
        have hrest1 : ∀ b ∈ rest, b ∈ s1.agents := by
          intro b hb
          exact hA.keep b (hrest b (List.mem_cons.2 (Or.inr hb))) (hbne b hb)
        have hbloc : ∀ b ∈ rest, b.loc ∈ s.occupied.erase a.loc := by
          intro b hb
          have hbs : b ∈ s.agents := hrest b (List.mem_cons.2 (Or.inr hb))
          have hbin : b.loc ∈ s.occupied := by
            rw [hInv.1.2]
            exact List.mem_toFinset.2 (List.mem_map_of_mem Agent.loc hbs)
          refine Finset.mem_erase.2 ⟨?_, hbin⟩
          intro heq
          have := List.inj_on_of_nodup_map hInv.1.1 hbs ha heq
          exact hbne b hb (congrArg Agent.id this)
        have hIH := ih (k + 1) s1 (insert r.hloc P) s2 log' hA.inv hrest1 hrids'
          (by
            intro x hx
            rw [hocc1]
            rcases Finset.mem_insert.1 hx with rfl | hx'
            · exact Finset.mem_insert_self _ _
            · refine Finset.mem_insert.2 (Or.inr ?_)
              refine Finset.mem_erase.2 ⟨?_, hP x hx'⟩
              intro heq
              rw [heq] at hx'
              exact haP hx')
          (by
            intro b hb
            intro hmem
            rcases Finset.mem_insert.1 hmem with heq | hx'
            · exact hhX (heq ▸ hbloc b hb)
            · exact hrestP b (List.mem_cons.2 (Or.inr hb)) hx')
          hrun2
          (fun r' hr' => hnd r' (List.mem_cons.2 (Or.inr hr')))
        obtain ⟨hnd', hP'⟩ := hIH
        constructor
        · simp only [List.map_cons, List.nodup_cons]
          refine ⟨?_, hnd'⟩
          intro hmem
          exact hP' r.hloc hmem (Finset.mem_insert_self _ _)
        · intro x hx
          simp only [List.map_cons, List.mem_cons] at hx
          rcases hx with rfl | hx'
          · exact hhlocP
          · intro hmem
            exact hP' x hx' (Finset.mem_insert.2 (Or.inr hmem))

/-! ### Claim theorems -/

lemma tier_spec (d : Int) :
    (441 ≤ d → tier d = 0) ∧ (256 ≤ d ∧ d < 441 → tier d = 1) ∧
    (121 ≤ d ∧ d < 256 → tier d = 2) ∧ (36 ≤ d ∧ d < 121 → tier d = 3) ∧
    (d < 36 → tier d = 4) := by
  unfold tier
  split_ifs <;> refine ⟨?_, ?_, ?_, ?_, ?_⟩ <;> intros <;> first | rfl | omega

/-- C1: for every engine state reachable from construction by completed
`step()` calls, the occupancy set equals the set of the live agents'
locations, no two agents share a location, and the size of the occupancy
set equals the number of live agents. -/
theorem reachable_occupied_eq_locs (s : Sim) (hs : Reachable s) :
    s.occupied = (s.agents.map Agent.loc).toFinset ∧
    (s.agents.map Agent.loc).Nodup ∧
    s.occupied.card = s.agents.length := by
  obtain ⟨⟨⟨hnd, hocc⟩, _⟩, _⟩ := reachable_invariant s hs
  refine ⟨hocc, hnd, ?_⟩
  rw [hocc, List.toFinset_card_of_nodup hnd, List.length_map]

/-- C2: starting from the freshly constructed resource field (level equal
to capacity), after any finite sequence of `grow()` and `harvest()` calls
every cell's level satisfies `0 ≤ level ≤ capacity`. -/
theorem level_bounds_applyRFOps (gr : Nat) (ops : List RFOp) (l : Loc) :
    0 ≤ applyRFOps gr capGrid capGrid ops l ∧
    applyRFOps gr capGrid capGrid ops l ≤ capGrid l :=
  applyRFOps_bounds gr capGrid capGrid_nonneg ops capGrid
    (fun l' => ⟨capGrid_nonneg l', le_refl _⟩) l

/-- C5: in a completed step from a reachable state, every agent that died
during the step is absent from the agent list afterwards; with `replace`
enabled the population size is unchanged, and with `replace` disabled it
drops by exactly the number of deaths. -/
theorem step_death_population_spec (s : Sim) (order : List Agent)
    (cs : Nat → Choice) (s' : Sim) (log : List ActRec)
    (hs : Reachable s) (ho : order.Perm s.agents)
    (h : stepSim s order cs = some (s', log)) :
    (∀ d ∈ log.filterMap ActRec.died, d ∉ s'.agents.map Agent.id) ∧
    (s.replace = true → s'.agents.length = s.agents.length) ∧
    (s.replace = false →
      s'.agents.length + (log.filterMap ActRec.died).length = s.agents.length) := by
  obtain ⟨hInv, _⟩ := reachable_invariant s hs
  obtain ⟨s1, hrun, hag, _, _, _, _, _, _, _, _⟩ := stepSim_spec _ _ _ _ _ h
  have hR := runAgents_spec cs s.nextId order 0 s s1 log hInv
    (fun b hb => ho.subset hb)
    (((ho.map Agent.id).nodup_iff).mpr hInv.2.1)
    (fun b hb => hInv.2.2 b (ho.subset hb)) (le_refl _) hrun
  refine ⟨?_, ?_, ?_⟩
  · intro d hd; rw [hag]; exact hR.deaths d hd
  · intro hrepl; rw [hag]; exact hR.lenRep hrepl
  · intro hrepl; rw [hag]; exact hR.lenNoRep hrepl

/-- C10: in a completed step with `replace` enabled from a reachable state,
every replacement spawned during the step is still present in the agent
list, with exactly its record at spawn time (same location, reserve and
age), when the step returns: replacements are never activated within the
step that spawned them. -/
theorem replacement_untouched_spec (s : Sim) (order : List Agent)
    (cs : Nat → Choice) (s' : Sim) (log : List ActRec)
    (hs : Reachable s) (ho : order.Perm s.agents) (hrep : s.replace = true)
    (h : stepSim s order cs = some (s', log)) :
    ∀ na ∈ log.filterMap ActRec.spawn, na ∈ s'.agents := by
  obtain ⟨hInv, _⟩ := reachable_invariant s hs
  obtain ⟨s1, hrun, hag, _, _, _, _, _, _, _, _⟩ := stepSim_spec _ _ _ _ _ h
  have hR := runAgents_spec cs s.nextId order 0 s s1 log hInv
    (fun b hb => ho.subset hb)
    (((ho.map Agent.id).nodup_iff).mpr hInv.2.1)
    (fun b hb => hInv.2.2 b (ho.subset hb)) (le_refl _) hrun
  intro na hna
  rw [hag]
  exact hR.spawns na hna

/-- C6 (amended): in a completed step from a reachable state, every cell
harvested on behalf of an activated agent is not in the occupancy set at
the moment of harvest (the destination is the agent's just-released center
or an unoccupied candidate), every activated agent's recorded location is
in the occupancy set at release time (so the defensive invariant-violation
case is unreachable), and — provided no agent dies during the step — each
cell is harvested at most once.  A mid-step death frees the dead agent's
harvested cell, which can then be harvested a second time that step. -/
theorem harvest_unoccupied_spec (s : Sim) (order : List Agent)
    (cs : Nat → Choice) (s' : Sim) (log : List ActRec)
    (hs : Reachable s) (ho : order.Perm s.agents)
    (h : stepSim s order cs = some (s', log)) :
    (∀ r ∈ log, r.hloc ∉ r.hocc) ∧
    (∀ r ∈ log, r.center ∈ r.occ0) ∧
    ((∀ r ∈ log, r.died = none) → (log.map ActRec.hloc).Nodup) := by
  obtain ⟨hInv, _⟩ := reachable_invariant s hs
  obtain ⟨s1, hrun, _, _, _, _, _, _, _, _, _⟩ := stepSim_spec _ _ _ _ _ h
  have hR := runAgents_spec cs s.nextId order 0 s s1 log hInv
    (fun b hb => ho.subset hb)
    (((ho.map Agent.id).nodup_iff).mpr hInv.2.1)
    (fun b hb => hInv.2.2 b (ho.subset hb)) (le_refl _) hrun
  refine ⟨hR.harvFree, hR.releases, ?_⟩
  intro hnd
  exact (runAgents_nodeath cs order 0 s ∅ s1 log hInv
    (fun b hb => ho.subset hb)
    (((ho.map Agent.id).nodup_iff).mpr hInv.2.1)
    (by simp) (by simp) hrun hnd).1

/-- C7: on every reachable state the capacity grid is exactly the
digitization (bin edges 21, 16, 11, 6 on the Euclidean distance, that is
441, 256, 121, 36 on the squared distance) of the minimum of the distances
to the peaks `(15, 15)` and `(35, 35)` — construction computes it and no
step modifies it — and the digitization sends squared distance at least
441 to tier 0, at least 256 to 1, at least 121 to 2, at least 36 to 3 and
otherwise to 4. -/
theorem capacity_formula_of_reachable (s : Sim) (hs : Reachable s) :
    (∀ l : Loc, s.capacity l
      = tier (min (distSq (15, 15) l.1 l.2) (distSq (35, 35) l.1 l.2))) ∧
    (∀ d : Int, (441 ≤ d → tier d = 0) ∧ (256 ≤ d ∧ d < 441 → tier d = 1) ∧
      (121 ≤ d ∧ d < 256 → tier d = 2) ∧ (36 ≤ d ∧ d < 121 → tier d = 3) ∧
      (d < 36 → tier d = 4)) := by
  obtain ⟨_, hcap⟩ := reachable_invariant s hs
  refine ⟨?_, tier_spec⟩
  intro l
  rw [hcap]
  rfl

/-- C9: the capacity formula is invariant under the joint reflection
`(i, j) ↦ (50 - i, 50 - j)` of the grid, the map that exchanges the two
peaks `(15, 15)` and `(35, 35)`. -/
theorem capacity_reflection_symmetric :
    ∀ i j : Int, capacityAt i j = capacityAt (50 - i) (50 - j) :=
  capacityAt_reflect

/-- C8: with the candidate cells of the starting box shuffled, construction
fails (the `assert` in `make_agents`) exactly when `num_agents` exceeds the
number of candidate cells; on success it places exactly `num_agents` agents
(no silent truncation) at pairwise distinct cells inside the starting
box. -/
theorem make_agents_spec (cfg : Config) (locs : List Loc)
    (attrs : Nat → AgentAttrs) (hl : locs.Perm (make_locs cfg.boxN cfg.boxM)) :
    (mkSim cfg locs attrs = none ↔ cfg.boxN * cfg.boxM < cfg.num_agents) ∧
    (∀ s, mkSim cfg locs attrs = some s →
      s.agents.length = cfg.num_agents ∧
      (s.agents.map Agent.loc).Nodup ∧
      ∀ a ∈ s.agents, a.loc.1 < cfg.boxN ∧ a.loc.2 < cfg.boxM) := by
  have hlen : locs.length = cfg.boxN * cfg.boxM := by
    rw [hl.length_eq, make_locs_length]
  constructor
  · rw [mkSim_none_iff, hlen]
  · intro s hmk
    obtain ⟨-, -, -, -, -, hagents, -, -, -, hle⟩ := mkSim_fields cfg locs attrs s hmk
    have hnd : locs.Nodup := (hl.nodup_iff).mpr (make_locs_nodup _ _)
    refine ⟨?_, ?_, ?_⟩
    · rw [hagents, mkAgentsFrom_length, List.length_take]
      omega
    · rw [hagents, mkAgentsFrom_map_loc]
      exact List.Nodup.sublist (List.take_sublist _ _) hnd
    · intro a ha
      rw [hagents] at ha
      have h1 : a.loc ∈ locs.take cfg.num_agents := by
        rw [← mkAgentsFrom_map_loc attrs (locs.take cfg.num_agents) 0]
        exact List.mem_map_of_mem Agent.loc ha
      have h2 : a.loc ∈ make_locs cfg.boxN cfg.boxM :=
        hl.subset (List.mem_of_mem_take h1)
      exact (mem_make_locs _ _ _).1 h2

/-- C4: for vision `v ≥ 1`, the kernel `make_visible_locs v` has exactly
`4 v` offsets, structured as `v` blocks of four in increasing distance
order, the block at distance `d` a permutation (freshly drawn per call) of
the four cardinal offsets `(-d,0), (d,0), (0,-d), (0,d)`; and the caller's
translate-and-wrap sends every offset to a coordinate inside
`[0,n) × [0,n)`. -/
theorem make_visible_locs_spec (v n : Nat)
    (σ : Nat → List (Int × Int) → List (Int × Int))
    (hv : 1 ≤ v) (hn : 0 < n) (hσ : ∀ d l, (σ d l).Perm l) :
    (make_visible_locs v σ).length = 4 * v ∧
    KernelValid v (make_visible_locs v σ) ∧
    (∀ d, 1 ≤ d → d ≤ v →
      (((make_visible_locs v σ).drop (4 * (d - 1))).take 4).Perm
        (cardOffsets (d : Int))) ∧
    (∀ off ∈ make_visible_locs v σ, ∀ c : Loc,
      (wrapLoc n c off).1 < n ∧ (wrapLoc n c off).2 < n) := by
  refine ⟨make_visible_locs_length v σ hσ, make_visible_locs_valid v σ hσ, ?_, ?_⟩
  · intro d h1 h2
    have hb := make_visible_locs_block v σ hσ (d - 1) (by omega)
    have hd : ((d - 1 : Nat) : Int) + 1 = (d : Int) := by omega
    rw [hd] at hb
    exact hb
  · intro off _ c
    exact wrapLoc_lt n hn c off

/-- C3: with a valid kernel for vision `v ≥ 1`, `look_and_move` returns the
center when every wrapped visible cell is occupied; otherwise it returns an
unoccupied visible candidate of strictly maximal resource level, namely the
first maximal one in the kernel's generation order (`np.argmax` returns the
first maximum, and generation order is increasing-distance-block order, so
a closer tied maximum beats a farther one). -/
theorem look_and_move_policy_spec (n : Nat) (occupied : Finset Loc)
    (arr : Loc → Int) (center : Loc) (v : Nat) (kernel : List (Int × Int))
    (hv : 1 ≤ v) (hk : KernelValid v kernel) :
    ((∀ cand ∈ kernel.map (fun off => wrapLoc n center off), cand ∈ occupied) →
      look_and_move n occupied arr center kernel = center) ∧
    (∀ cand ∈ kernel.map (fun off => wrapLoc n center off), cand ∉ occupied →
      ∃ i, i < ((kernel.map (fun off => wrapLoc n center off)).filter
                 (fun l => decide (l ∉ occupied))).length ∧
        look_and_move n occupied arr center kernel
          = ((kernel.map (fun off => wrapLoc n center off)).filter
              (fun l => decide (l ∉ occupied))).getD i center ∧
        look_and_move n occupied arr center kernel ∉ occupied ∧
        (∀ j, j < ((kernel.map (fun off => wrapLoc n center off)).filter
                    (fun l => decide (l ∉ occupied))).length →
          arr (((kernel.map (fun off => wrapLoc n center off)).filter
                 (fun l => decide (l ∉ occupied))).getD j center)
            ≤ arr (look_and_move n occupied arr center kernel)) ∧
        (∀ j, j < i →
          arr (((kernel.map (fun off => wrapLoc n center off)).filter
                 (fun l => decide (l ∉ occupied))).getD j center)
            < arr (look_and_move n occupied arr center kernel))) := by
  constructor
  · intro hall
    apply look_and_move_of_filter_nil
    rw [List.filter_eq_nil_iff]
    intro l hl hdec
    exact (of_decide_eq_true hdec) (hall l hl)
  · intro cand hcand hnocc
    have hmemF : cand ∈ (kernel.map (fun off => wrapLoc n center off)).filter
        (fun l => decide (l ∉ occupied)) :=
      List.mem_filter.2 ⟨hcand, by simpa using hnocc⟩
    cases hE : (kernel.map (fun off => wrapLoc n center off)).filter
        (fun l => decide (l ∉ occupied)) with
    | nil => rw [hE] at hmemF; cases hmemF
    | cons x E =>
      have hlm := look_and_move_of_filter_cons n occupied arr center kernel x E hE
      have hmap : (x :: E).map arr = arr x :: E.map arr := rfl
      have hi_eq : argmax ((x :: E).map arr) = (argmaxFrom (arr x) (E.map arr)).1 := by
        rw [hmap]; rfl
      have hilen : argmax ((x :: E).map arr) < (x :: E).length := by
        rw [hi_eq]
        have := argmaxFrom_lt (E.map arr) (arr x)
        simpa using this
      have hresmem : (x :: E).getD (argmax ((x :: E).map arr)) center ∈ x :: E :=
        getD_mem_of_lt _ _ _ hilen
      have hresF : (x :: E).getD (argmax ((x :: E).map arr)) center
          ∈ (kernel.map (fun off => wrapLoc n center off)).filter
              (fun l => decide (l ∉ occupied)) := by
        rw [hE]; exact hresmem
      have hresno : (x :: E).getD (argmax ((x :: E).map arr)) center ∉ occupied :=
        of_decide_eq_true (List.mem_filter.1 hresF).2
      have hval : ((x :: E).map arr).getD (argmax ((x :: E).map arr)) 0
          = (argmaxFrom (arr x) (E.map arr)).2 := by
        rw [hmap]
        exact argmaxFrom_getD (E.map arr) (arr x)
      have hres_arr : arr ((x :: E).getD (argmax ((x :: E).map arr)) center)
          = (argmaxFrom (arr x) (E.map arr)).2 := by
        rw [← hval]
        exact (getD_map_of_lt arr (x :: E) _ center hilen).symm
      refine ⟨argmax ((x :: E).map arr), hilen, hlm, ?_, ?_, ?_⟩
      · rw [hlm]; exact hresno
      · intro j hj
        rw [hlm, hres_arr]
        have hj' : j < (E.map arr).length + 1 := by simpa using hj
        have hle := argmaxFrom_le (E.map arr) (arr x) j hj'
        have harr : arr ((x :: E).getD j center) = ((x :: E).map arr).getD j 0 :=
          (getD_map_of_lt arr (x :: E) j center hj).symm
        rw [harr, hmap]
        exact hle
      · intro j hj
        rw [hlm, hres_arr]
        have hj2 : j < (argmaxFrom (arr x) (E.map arr)).1 := hi_eq ▸ hj
        have hjlen : j < (x :: E).length := lt_trans hj hilen
        have hlt := argmaxFrom_first (E.map arr) (arr x) j hj2
        have harr : arr ((x :: E).getD j center) = ((x :: E).map arr).getD j 0 :=
          (getD_map_of_lt arr (x :: E) j center hjlen).symm
        rw [harr, hmap]
        exact hlt

/-! ### Concrete scenarios -/

/-- Attribute oracle: agent 0 draws metabolism 5 with reserve 1 (it starves
on its first step on this grid), all others draw metabolism 1 with
reserve 5. -/
def attrsW : Nat → AgentAttrs := fun i =>
  if i = 0 then ⟨1, 5, 1, 100⟩ else ⟨1, 1, 5, 100⟩

/-- A 2 by 2 grid, two agents, replacement enabled. -/
def cfgB : Config := ⟨2, 2, 2, 2, 1, true⟩

def locsB : List Loc := [(1, 1), (0, 1), (0, 0), (1, 0)]

def simB : Sim := (mkSim cfgB locsB attrsW).get (by decide)

def csB : Nat → Choice := fun _ => ⟨fun _ l => l, [(0, 0)], ⟨1, 1, 5, 100⟩⟩

lemma simB_mk : mkSim cfgB locsB attrsW = some simB :=
  (Option.some_get (by decide)).symm

lemma simB_reachable : Reachable simB :=
  Reachable.init cfgB locsB attrsW simB (by decide) simB_mk

def pairB : Sim × List ActRec := (stepSim simB simB.agents csB).get (by decide)

lemma pairB_eq : stepSim simB simB.agents csB = some (pairB.1, pairB.2) :=
  (Option.some_get (by decide)).symm

/-- A 2 by 2 grid, three agents, no replacement: agent 0 harvests `(1, 0)`
and starves, after which agent 1 harvests the same freed cell again. -/
def cfgC : Config := ⟨2, 2, 2, 3, 1, false⟩

def locsC : List Loc := [(1, 1), (0, 0), (0, 1), (1, 0)]

def simC : Sim := (mkSim cfgC locsC attrsW).get (by decide)

def csC : Nat → Choice := fun _ => ⟨fun _ l => l, [], ⟨1, 1, 5, 100⟩⟩

lemma simC_mk : mkSim cfgC locsC attrsW = some simC :=
  (Option.some_get (by decide)).symm

lemma simC_reachable : Reachable simC :=
  Reachable.init cfgC locsC attrsW simC (by decide) simC_mk

def pairC : Sim × List ActRec := (stepSim simC simC.agents csC).get (by decide)

lemma pairC_eq : stepSim simC simC.agents csC = some (pairC.1, pairC.2) :=
  (Option.some_get (by decide)).symm

/-! ### Witnesses and counterexample -/

theorem reachable_occupied_eq_locs_witness :
    simB.occupied = (simB.agents.map Agent.loc).toFinset ∧
    (simB.agents.map Agent.loc).Nodup ∧
    simB.occupied.card = simB.agents.length :=
  reachable_occupied_eq_locs simB simB_reachable

theorem step_death_population_spec_witness :
    (∀ d ∈ pairB.2.filterMap ActRec.died, d ∉ pairB.1.agents.map Agent.id) ∧
    (simB.replace = true → pairB.1.agents.length = simB.agents.length) ∧
    (simB.replace = false →
      pairB.1.agents.length + (pairB.2.filterMap ActRec.died).length
        = simB.agents.length) :=
  step_death_population_spec simB simB.agents csB pairB.1 pairB.2
    simB_reachable (List.Perm.refl _) pairB_eq

theorem replacement_untouched_spec_witness :
    (∀ na ∈ pairB.2.filterMap ActRec.spawn, na ∈ pairB.1.agents) ∧
    (pairB.2.filterMap ActRec.spawn).length = 1 :=
  ⟨replacement_untouched_spec simB simB.agents csB pairB.1 pairB.2
    simB_reachable (List.Perm.refl _) (by rfl) pairB_eq, by decide⟩

theorem harvest_unoccupied_spec_witness :
    (∀ r ∈ pairB.2, r.hloc ∉ r.hocc) ∧
    (∀ r ∈ pairB.2, r.center ∈ r.occ0) ∧
    ((∀ r ∈ pairB.2, r.died = none) → (pairB.2.map ActRec.hloc).Nodup) :=
  harvest_unoccupied_spec simB simB.agents csB pairB.1 pairB.2
    simB_reachable (List.Perm.refl _) pairB_eq

/-- C6, counterexample to "each cell is harvested at most once per step":
in the concrete reachable state `simC`, a completed step harvests the cell
`(1, 0)` twice — agent 0 harvests it and dies, freeing it, and agent 1
then harvests it again. -/
theorem harvest_twice_counterexample :
    Reachable simC ∧ simC.agents.Perm simC.agents ∧
    stepSim simC simC.agents csC = some (pairC.1, pairC.2) ∧
    ¬ (pairC.2.map ActRec.hloc).Nodup :=
  ⟨simC_reachable, List.Perm.refl _, pairC_eq, by decide⟩

theorem capacity_formula_of_reachable_witness :
    (∀ l : Loc, simB.capacity l
      = tier (min (distSq (15, 15) l.1 l.2) (distSq (35, 35) l.1 l.2))) ∧
    (∀ d : Int, (441 ≤ d → tier d = 0) ∧ (256 ≤ d ∧ d < 441 → tier d = 1) ∧
      (121 ≤ d ∧ d < 256 → tier d = 2) ∧ (36 ≤ d ∧ d < 121 → tier d = 3) ∧
      (d < 36 → tier d = 4)) :=
  capacity_formula_of_reachable simB simB_reachable

/-- A 2 by 2 starting box with exactly four requested agents. -/
def cfgD : Config := ⟨2, 2, 2, 4, 1, false⟩

theorem make_agents_spec_witness :
    (mkSim cfgD (make_locs 2 2) attrsW = none
      ↔ cfgD.boxN * cfgD.boxM < cfgD.num_agents) ∧
    (∀ s, mkSim cfgD (make_locs 2 2) attrsW = some s →
      s.agents.length = cfgD.num_agents ∧
      (s.agents.map Agent.loc).Nodup ∧
      ∀ a ∈ s.agents, a.loc.1 < cfgD.boxN ∧ a.loc.2 < cfgD.boxM) :=
  make_agents_spec cfgD (make_locs 2 2) attrsW (List.Perm.refl _)

theorem make_visible_locs_spec_witness :
    (make_visible_locs 2 (fun _ l => l)).length = 4 * 2 ∧
    KernelValid 2 (make_visible_locs 2 (fun _ l => l)) ∧
    (∀ d, 1 ≤ d → d ≤ 2 →
      (((make_visible_locs 2 (fun _ l => l)).drop (4 * (d - 1))).take 4).Perm
        (cardOffsets (d : Int))) ∧
    (∀ off ∈ make_visible_locs 2 (fun _ l => l), ∀ c : Loc,
      (wrapLoc 3 c off).1 < 3 ∧ (wrapLoc 3 c off).2 < 3) :=
  make_visible_locs_spec 2 3 (fun _ l => l) (by decide) (by decide)
    (fun d l => List.Perm.refl l)

lemma kernelW_valid : KernelValid 1 (cardOffsets 1) := by
  refine ⟨[cardOffsets 1], rfl, by decide, ?_⟩
  intro i h
  have h0 : i = 0 := by
    simp only [List.length_singleton] at h
    omega
  subst h0
  exact List.Perm.refl _

theorem look_and_move_policy_spec_witness :
    ((∀ cand ∈ (cardOffsets 1).map (fun off => wrapLoc 2 (0, 0) off),
        cand ∈ (∅ : Finset Loc)) →
      look_and_move 2 ∅ capGrid (0, 0) (cardOffsets 1) = (0, 0)) ∧
    (∀ cand ∈ (cardOffsets 1).map (fun off => wrapLoc 2 (0, 0) off),
      cand ∉ (∅ : Finset Loc) →
      ∃ i, i < (((cardOffsets 1).map (fun off => wrapLoc 2 (0, 0) off)).filter
                 (fun l => decide (l ∉ (∅ : Finset Loc)))).length ∧
        look_and_move 2 ∅ capGrid (0, 0) (cardOffsets 1)
          = (((cardOffsets 1).map (fun off => wrapLoc 2 (0, 0) off)).filter
              (fun l => decide (l ∉ (∅ : Finset Loc)))).getD i (0, 0) ∧
        look_and_move 2 ∅ capGrid (0, 0) (cardOffsets 1) ∉ (∅ : Finset Loc) ∧
        (∀ j, j < (((cardOffsets 1).map (fun off => wrapLoc 2 (0, 0) off)).filter
                    (fun l => decide (l ∉ (∅ : Finset Loc)))).length →
          capGrid ((((cardOffsets 1).map (fun off => wrapLoc 2 (0, 0) off)).filter
                 (fun l => decide (l ∉ (∅ : Finset Loc)))).getD j (0, 0))
            ≤ capGrid (look_and_move 2 ∅ capGrid (0, 0) (cardOffsets 1))) ∧
        (∀ j, j < i →
          capGrid ((((cardOffsets 1).map (fun off => wrapLoc 2 (0, 0) off)).filter
                 (fun l => decide (l ∉ (∅ : Finset Loc)))).getD j (0, 0))
            < capGrid (look_and_move 2 ∅ capGrid (0, 0) (cardOffsets 1)))) :=
  look_and_move_policy_spec 2 ∅ capGrid (0, 0) 1 (cardOffsets 1)
    (le_refl 1) kernelW_valid
